import Mathlib

/-!
Verification of the recurring crypto buy Lambda (sizing engine, allocation
handler, Gemini client nonce) against its natural-language specification.

The Python source works in exact decimal arithmetic (`decimal.Decimal`);
we embed it over `ℚ`.  `Decimal.quantize(10^-d, ROUND_DOWN)` truncates
toward zero at `d` decimal places, `ROUND_UP` rounds away from zero, and
`ROUND_HALF_UP` rounds to nearest with ties away from zero; the three
`quantize_*` functions below implement exactly that.
-/

/-- Truncation toward zero of a rational, as an integer (Decimal ROUND_DOWN). -/
def truncQ (x : ℚ) : ℤ := if 0 ≤ x then ⌊x⌋ else ⌈x⌉

/-- Rounding away from zero of a rational, as an integer (Decimal ROUND_UP). -/
def awayQ (x : ℚ) : ℤ := if 0 ≤ x then ⌈x⌉ else ⌊x⌋

/-- Rounding to nearest with ties away from zero (Decimal ROUND_HALF_UP). -/
def halfUpQ (x : ℚ) : ℤ := if 0 ≤ x then ⌊x + 1/2⌋ else ⌈x - 1/2⌉

/-- Python Decimal.quantize to `d` decimal places with ROUND_DOWN. -/
def quantize_down (d : ℕ) (x : ℚ) : ℚ := (truncQ (x * 10 ^ d) : ℚ) / 10 ^ d

/-- Python Decimal.quantize to `d` decimal places with ROUND_UP. -/
def quantize_up (d : ℕ) (x : ℚ) : ℚ := (awayQ (x * 10 ^ d) : ℚ) / 10 ^ d

/-- Python Decimal.quantize to `d` decimal places with ROUND_HALF_UP. -/
def quantize_half_up (d : ℕ) (x : ℚ) : ℚ := (halfUpQ (x * 10 ^ d) : ℚ) / 10 ^ d

/-- Says `x` is an exact multiple of `10^(-d)` (expressible at `d` decimal places). -/
def is_mult (d : ℕ) (x : ℚ) : Prop := ∃ k : ℤ, x = (k : ℚ) / 10 ^ d

/-- Source `_quant_step` from recurring_buy_crypto.py: `Decimal("1").scaleb(-tick_size)`. -/
def quant_step (tick_size : ℕ) : ℚ := 1 / 10 ^ tick_size

/-- Source `_get_execution_price`: `(ask * slippage_factor).quantize(0.01, ROUND_DOWN)`. -/
def get_execution_price (ask slippage_factor : ℚ) : ℚ :=
  quantize_down 2 (ask * slippage_factor)

/-- Source `_compute_cost_floor`: `(execution_price * crypto_amount).quantize(0.01, ROUND_DOWN)`. -/
def compute_cost_floor (execution_price crypto_amount : ℚ) : ℚ :=
  quantize_down 2 (execution_price * crypto_amount)

/-- Source `_compute_fee_floor`: `(cost * fee_rate).quantize(0.01, ROUND_DOWN)`. -/
def compute_fee_floor (cost fee_rate : ℚ) : ℚ := quantize_down 2 (cost * fee_rate)

/-- Source `_compute_fee_ceil`: `(cost * fee_rate).quantize(0.01, ROUND_UP)`. -/
def compute_fee_ceil (cost fee_rate : ℚ) : ℚ := quantize_up 2 (cost * fee_rate)

/-- Source `_required_funds_conservative`: cost floored to cents, fee on that cost
ceiled to cents, sum quantized up to cents. -/
def required_funds_conservative (execution_price crypto_amount fee_rate : ℚ) : ℚ :=
  quantize_up 2 (compute_cost_floor execution_price crypto_amount +
    compute_fee_ceil (compute_cost_floor execution_price crypto_amount) fee_rate)

/-- The `order_payload` dict built by `plan_order_to_cap`. -/
structure OrderPayload where
  symbol : String
  amount : ℚ
  price : ℚ
  side : String
  order_type : String
  options : List String
deriving DecidableEq, Repr

/-- The non-skipped plan dict returned by `plan_order_to_cap`. -/
structure OrderPlan where
  asset : String
  gross_cap : ℚ
  execution_price : ℚ
  crypto_amount : ℚ
  order_cost : ℚ
  order_fee_floor : ℚ
  total_cost_floor : ℚ
  fee_conservative : ℚ
  required_conservative : ℚ
  order_payload : OrderPayload
deriving DecidableEq, Repr

/-- Result of `plan_order_to_cap`: either a skip dict (with its reason string)
or a full plan dict. -/
inductive PlanResult where
  | skipped (reason : String)
  | planned (plan : OrderPlan)
deriving DecidableEq, Repr

/-- Lines 161-198 of recurring_buy_crypto.py: the code after the bump loop.
Computes the reporting fields, re-checks the conservative requirement against
the cap, and either returns the defensive skip dict or the final plan dict. -/
def finalize_plan (asset symbol : String) (gross_cap execution_price fee_rate : ℚ)
    (crypto_amount : ℚ) : PlanResult :=
  let order_cost := compute_cost_floor execution_price crypto_amount
  let order_fee_floor := compute_fee_floor order_cost fee_rate
  let total_cost_floor := quantize_down 2 (order_cost + order_fee_floor)
  let required_conservative := required_funds_conservative execution_price crypto_amount fee_rate
  let fee_conservative := compute_fee_ceil order_cost fee_rate
  if gross_cap < required_conservative then
    PlanResult.skipped (asset ++ ": cannot fit within cap under conservative hold")
  else
    PlanResult.planned
      { asset := asset
        gross_cap := gross_cap
        execution_price := execution_price
        crypto_amount := crypto_amount
        order_cost := order_cost
        order_fee_floor := order_fee_floor
        total_cost_floor := total_cost_floor
        fee_conservative := fee_conservative
        required_conservative := required_conservative
        order_payload :=
          { symbol := symbol
            amount := crypto_amount
            price := execution_price
            side := "buy"
            order_type := "exchange limit"
            options := ["maker-or-cancel"] } }

/-- The `while True` bump loop of `plan_order_to_cap` (lines 153-159), with
explicit fuel: each iteration forms the candidate `crypto_amount + step`
(re-quantized to the tick, as the source does), stops returning the current
quantity as soon as the candidate's conservative requirement exceeds the cap,
and otherwise accepts the candidate.  `none` means the fuel ran out before the
loop broke. -/
def bump_loop (execution_price fee_rate gross_cap : ℚ) (tick_size : ℕ) :
    ℕ → ℚ → Option ℚ
  | 0, _ => none
  | fuel + 1, crypto_amount =>
    if gross_cap < required_funds_conservative execution_price
        (quantize_down tick_size (crypto_amount + quant_step tick_size)) fee_rate then
      some crypto_amount
    else
      bump_loop execution_price fee_rate gross_cap tick_size fuel
        (quantize_down tick_size (crypto_amount + quant_step tick_size))

/-- Embedding of `plan_order_to_cap` from recurring_buy_crypto.py.  The one network read it
performs (the ticker ask used by `_get_execution_price`) is passed in as `ask`;
the unbounded `while` loop carries explicit `fuel` (`none` = fuel exhausted). -/
def plan_order_to_cap (fuel : ℕ) (asset : String) (gross_cap : ℚ) (symbol : String)
    (tick_size : ℕ) (min_quantity slippage_factor fee_rate ask : ℚ) : Option PlanResult :=
  let gc := quantize_down 2 gross_cap
  if gc ≤ 0 then some (PlanResult.skipped "gross_cap <= 0")
  else
    let execution_price := get_execution_price ask slippage_factor
    let denom := execution_price * (1 + fee_rate)
    if denom ≤ 0 then some (PlanResult.skipped "bad denom")
    else
      let crypto_amount := quantize_down tick_size (gc / denom)
      if crypto_amount < min_quantity then
        some (PlanResult.skipped (asset ++ ": below min quantity"))
      else
        (bump_loop execution_price fee_rate gc tick_size fuel crypto_amount).map
          (finalize_plan asset symbol gc execution_price fee_rate)

/-- Result of `place_planned_order`: the skip dict passed through, the placed
dict, or the error dict produced by the except branches. -/
inductive PlaceResult where
  | skipped (reason : String)
  | placed (plan : OrderPlan) (result : String)
  | errored (msg : String) (plan : OrderPlan)
deriving DecidableEq, Repr

/-- Embedding of `place_planned_order` from recurring_buy_crypto.py.  The outcome of the
one network call `gemini.place_order` is passed in as `outcome`
(`Except.error` = the call raised); both except branches of the source produce
the error dict. -/
def place_planned_order (plan : PlanResult) (outcome : Except String String) : PlaceResult :=
  match plan with
  | PlanResult.skipped r => PlaceResult.skipped r
  | PlanResult.planned p =>
    match outcome with
    | Except.ok res => PlaceResult.placed p res
    | Except.error e => PlaceResult.errored e p

/-! ### Basic facts about the rounding primitives -/

lemma truncQ_of_nonneg {x : ℚ} (hx : 0 ≤ x) : truncQ x = ⌊x⌋ := by
  unfold truncQ; rw [if_pos hx]

lemma awayQ_of_nonneg {x : ℚ} (hx : 0 ≤ x) : awayQ x = -⌊-x⌋ := by
  unfold awayQ; rw [if_pos hx, ← Int.ceil_neg, neg_neg]

lemma halfUpQ_of_nonneg {x : ℚ} (hx : 0 ≤ x) : halfUpQ x = ⌊x + 1/2⌋ := by
  unfold halfUpQ; rw [if_pos hx]

lemma pow_ten_pos (d : ℕ) : (0:ℚ) < 10 ^ d := by positivity

lemma quantize_down_eval {d : ℕ} {x : ℚ} (hx : 0 ≤ x) :
    quantize_down d x = ((⌊x * 10 ^ d⌋ : ℤ) : ℚ) / 10 ^ d := by
  unfold quantize_down
  rw [truncQ_of_nonneg (by positivity)]

lemma quantize_up_eval {d : ℕ} {x : ℚ} (hx : 0 ≤ x) :
    quantize_up d x = ((-⌊-(x * 10 ^ d)⌋ : ℤ) : ℚ) / 10 ^ d := by
  unfold quantize_up
  rw [awayQ_of_nonneg (by positivity)]

lemma quantize_half_up_eval {d : ℕ} {x : ℚ} (hx : 0 ≤ x) :
    quantize_half_up d x = ((⌊x * 10 ^ d + 1/2⌋ : ℤ) : ℚ) / 10 ^ d := by
  unfold quantize_half_up
  rw [halfUpQ_of_nonneg (by positivity)]

lemma truncQ_le_self {x : ℚ} (hx : 0 ≤ x) : (truncQ x : ℚ) ≤ x := by
  rw [truncQ_of_nonneg hx]; exact Int.floor_le x

lemma truncQ_nonneg {x : ℚ} (hx : 0 ≤ x) : (0:ℚ) ≤ (truncQ x : ℚ) := by
  rw [truncQ_of_nonneg hx]
  exact_mod_cast Int.floor_nonneg.mpr hx

lemma lt_truncQ_add_one {x : ℚ} (hx : 0 ≤ x) : x < (truncQ x : ℚ) + 1 := by
  rw [truncQ_of_nonneg hx]; exact Int.lt_floor_add_one x

lemma truncQ_intCast (k : ℤ) : truncQ (k : ℚ) = k := by
  unfold truncQ; split <;> simp

lemma awayQ_intCast (k : ℤ) : awayQ (k : ℚ) = k := by
  unfold awayQ; split <;> simp

lemma le_awayQ {x : ℚ} (hx : 0 ≤ x) : x ≤ (awayQ x : ℚ) := by
  unfold awayQ; rw [if_pos hx]; exact Int.le_ceil x

lemma awayQ_lt_add_one (x : ℚ) : (awayQ x : ℚ) < x + 1 := by
  unfold awayQ; split
  · exact Int.ceil_lt_add_one x
  · calc ((⌊x⌋ : ℤ) : ℚ) ≤ x := Int.floor_le x
      _ < x + 1 := by linarith

lemma quantize_down_le_self {d : ℕ} {x : ℚ} (hx : 0 ≤ x) : quantize_down d x ≤ x := by
  unfold quantize_down
  rw [div_le_iff (pow_ten_pos d)]
  exact truncQ_le_self (by positivity)

lemma quantize_down_nonneg {d : ℕ} {x : ℚ} (hx : 0 ≤ x) : 0 ≤ quantize_down d x := by
  unfold quantize_down
  exact div_nonneg (truncQ_nonneg (by positivity)) (pow_ten_pos d).le

lemma sub_lt_quantize_down {d : ℕ} {x : ℚ} (hx : 0 ≤ x) :
    x - 1 / 10 ^ d < quantize_down d x := by
  unfold quantize_down
  rw [lt_div_iff (pow_ten_pos d), sub_mul, div_mul_cancel₀ _ (pow_ten_pos d).ne']
  have h1 : x * 10 ^ d < (truncQ (x * 10 ^ d) : ℚ) + 1 := lt_truncQ_add_one (by positivity)
  linarith

lemma quantize_up_lt_add {d : ℕ} (x : ℚ) : quantize_up d x < x + 1 / 10 ^ d := by
  unfold quantize_up
  rw [div_lt_iff (pow_ten_pos d), add_mul, div_mul_cancel₀ _ (pow_ten_pos d).ne']
  exact awayQ_lt_add_one (x * 10 ^ d)

lemma le_quantize_up {d : ℕ} {x : ℚ} (hx : 0 ≤ x) : x ≤ quantize_up d x := by
  unfold quantize_up
  rw [le_div_iff (pow_ten_pos d)]
  exact le_awayQ (by positivity)

lemma quantize_up_nonneg {d : ℕ} {x : ℚ} (hx : 0 ≤ x) : 0 ≤ quantize_up d x :=
  le_trans hx (le_quantize_up hx)

/-! ### Exact decimal multiples -/

lemma quantize_down_is_mult (d : ℕ) (x : ℚ) : is_mult d (quantize_down d x) :=
  ⟨truncQ (x * 10 ^ d), rfl⟩

lemma quantize_up_is_mult (d : ℕ) (x : ℚ) : is_mult d (quantize_up d x) :=
  ⟨awayQ (x * 10 ^ d), rfl⟩

lemma is_mult_zero (d : ℕ) : is_mult d 0 := ⟨0, by simp⟩

lemma is_mult_add {d : ℕ} {x y : ℚ} (hx : is_mult d x) (hy : is_mult d y) :
    is_mult d (x + y) := by
  obtain ⟨k, rfl⟩ := hx; obtain ⟨m, rfl⟩ := hy
  exact ⟨k + m, by push_cast; ring⟩

lemma is_mult_sub {d : ℕ} {x y : ℚ} (hx : is_mult d x) (hy : is_mult d y) :
    is_mult d (x - y) := by
  obtain ⟨k, rfl⟩ := hx; obtain ⟨m, rfl⟩ := hy
  exact ⟨k - m, by push_cast; ring⟩

lemma is_mult_min {d : ℕ} {x y : ℚ} (hx : is_mult d x) (hy : is_mult d y) :
    is_mult d (min x y) := by
  rcases min_choice x y with h | h <;> rw [h] <;> assumption

lemma quantize_down_eq_of_mult {d : ℕ} {x : ℚ} (h : is_mult d x) :
    quantize_down d x = x := by
  obtain ⟨k, rfl⟩ := h
  unfold quantize_down
  rw [div_mul_cancel₀ _ (pow_ten_pos d).ne', truncQ_intCast]

lemma quantize_up_eq_of_mult {d : ℕ} {x : ℚ} (h : is_mult d x) :
    quantize_up d x = x := by
  obtain ⟨k, rfl⟩ := h
  unfold quantize_up
  rw [div_mul_cancel₀ _ (pow_ten_pos d).ne', awayQ_intCast]

lemma mult_of_quantize_down_eq {d : ℕ} {x : ℚ} (h : quantize_down d x = x) :
    is_mult d x := ⟨truncQ (x * 10 ^ d), h.symm⟩

lemma mult_le_of_lt_add {d : ℕ} {x y : ℚ} (hx : is_mult d x) (hy : is_mult d y)
    (h : x < y + 1 / 10 ^ d) : x ≤ y := by
  obtain ⟨k, rfl⟩ := hx; obtain ⟨m, rfl⟩ := hy
  have hE := pow_ten_pos d
  rw [div_add_div_same] at h
  have hkm : (k : ℚ) < (m : ℚ) + 1 := by
    have := (div_lt_div_right hE).mp h
    push_cast at this ⊢
    linarith
  have hk : k ≤ m := by exact_mod_cast Int.lt_add_one_iff.mp (by exact_mod_cast hkm)
  exact (div_le_div_right hE).mpr (by exact_mod_cast hk)

/-! ### The conservative requirement: normal form and bounds -/

lemma compute_cost_floor_def (p q : ℚ) :
    compute_cost_floor p q = quantize_down 2 (p * q) := rfl

lemma compute_fee_ceil_def (c f : ℚ) :
    compute_fee_ceil c f = quantize_up 2 (c * f) := rfl

lemma required_is_mult (p q f : ℚ) :
    is_mult 2 (required_funds_conservative p q f) := quantize_up_is_mult 2 _

lemma required_eq (p q f : ℚ) :
    required_funds_conservative p q f =
      compute_cost_floor p q + compute_fee_ceil (compute_cost_floor p q) f := by
  unfold required_funds_conservative
  exact quantize_up_eq_of_mult
    (is_mult_add (quantize_down_is_mult 2 _) (quantize_up_is_mult 2 _))

/-- If `q` does not exceed the exact lower bound `gc / (price * (1 + fee))`,
its conservative requirement fits in a cent-quantized cap `gc`.  This is why
the starting quantity of `plan_order_to_cap` always passes the final check. -/
lemma required_le_cap {p f gc : ℚ} (hp : 0 < p) (hf1 : 0 < 1 + f)
    (hgc : is_mult 2 gc) {q : ℚ} (hq0 : 0 ≤ q)
    (hle : q ≤ gc / (p * (1 + f))) :
    required_funds_conservative p q f ≤ gc := by
  have hpq : (0:ℚ) ≤ p * q := mul_nonneg hp.le hq0
  have hc_le : compute_cost_floor p q ≤ p * q := by
    rw [compute_cost_floor_def]; exact quantize_down_le_self hpq
  have hfee : compute_fee_ceil (compute_cost_floor p q) f <
      compute_cost_floor p q * f + 1 / 10 ^ 2 := by
    rw [compute_fee_ceil_def]; exact quantize_up_lt_add _
  have hd : 0 < p * (1 + f) := mul_pos hp hf1
  have h2 : p * q * (1 + f) ≤ gc := by
    have h := mul_le_mul_of_nonneg_right hle hd.le
    rw [div_mul_cancel₀ _ hd.ne'] at h
    calc p * q * (1 + f) = q * (p * (1 + f)) := by ring
      _ ≤ gc := h
  have h1 : compute_cost_floor p q * (1 + f) ≤ p * q * (1 + f) :=
    mul_le_mul_of_nonneg_right hc_le hf1.le
  have hlt : required_funds_conservative p q f < gc + 1 / 10 ^ 2 := by
    rw [required_eq]
    have e : compute_cost_floor p q * (1 + f) =
        compute_cost_floor p q + compute_cost_floor p q * f := by ring
    linarith
  exact mult_le_of_lt_add (required_is_mult p q f) hgc hlt

/-- The conservative requirement grows at least like the raw principal cost:
this is what makes the bump loop terminate. -/
lemma lt_required {p f q : ℚ} (hpq : 0 ≤ p * q) (hf : 0 ≤ f) :
    p * q - 1 / 10 ^ 2 < required_funds_conservative p q f := by
  rw [required_eq]
  have h1 : p * q - 1 / 10 ^ 2 < compute_cost_floor p q := by
    rw [compute_cost_floor_def]; exact sub_lt_quantize_down hpq
  have h2 : 0 ≤ compute_fee_ceil (compute_cost_floor p q) f := by
    rw [compute_fee_ceil_def]
    exact quantize_up_nonneg
      (mul_nonneg (by rw [compute_cost_floor_def]; exact quantize_down_nonneg hpq) hf)
  linarith

/-! ### The bump loop -/

lemma step_pos (t : ℕ) : 0 < quant_step t := by unfold quant_step; positivity

lemma step_is_mult (t : ℕ) : is_mult t (quant_step t) := ⟨1, by unfold quant_step; norm_num⟩

lemma tick_add_step {t : ℕ} {q : ℚ} (h : quantize_down t q = q) :
    quantize_down t (q + quant_step t) = q + quant_step t :=
  quantize_down_eq_of_mult (is_mult_add (mult_of_quantize_down_eq h) (step_is_mult t))

/-- Postcondition of the bump loop when it breaks within its fuel: the result
is still tick-quantized, at least the starting quantity, fits the cap unless
it is the untouched start, and the very next tick no longer fits (maximality). -/
lemma bump_loop_spec {p f cap : ℚ} {t : ℕ} :
    ∀ {n : ℕ} {q q' : ℚ}, quantize_down t q = q →
      bump_loop p f cap t n q = some q' →
      quantize_down t q' = q' ∧ q ≤ q' ∧
        (q' = q ∨ required_funds_conservative p q' f ≤ cap) ∧
        cap < required_funds_conservative p (q' + quant_step t) f := by
  intro n
  induction n with
  | zero => intro q q' _ h; simp [bump_loop] at h
  | succ n ih =>
    intro q q' hq h
    simp only [bump_loop] at h
    rw [tick_add_step hq] at h
    by_cases hc : cap < required_funds_conservative p (q + quant_step t) f
    · rw [if_pos hc] at h
      have hqq : q = q' := Option.some.inj h
      subst hqq
      exact ⟨hq, le_refl q, Or.inl rfl, hc⟩
    · rw [if_neg hc] at h
      obtain ⟨h1, h2, h3, h4⟩ := ih (tick_add_step hq) h
      refine ⟨h1, ?_, ?_, h4⟩
      · have hs : q ≤ q + quant_step t := by linarith [step_pos t]
        exact hs.trans h2
      · rcases h3 with h3 | h3
        · exact Or.inr (by rw [h3]; exact not_lt.mp hc)
        · exact Or.inr h3

/-- If some later tick already fails the cap check, the loop breaks within
that much fuel. -/
lemma bump_loop_exits {p f cap : ℚ} {t : ℕ} :
    ∀ (n : ℕ) {q : ℚ}, quantize_down t q = q →
      cap < required_funds_conservative p (q + ((n : ℚ) + 1) * quant_step t) f →
      ∃ q', bump_loop p f cap t (n + 1) q = some q' := by
  intro n
  induction n with
  | zero =>
    intro q hq hreq
    refine ⟨q, ?_⟩
    simp only [bump_loop]
    rw [tick_add_step hq, if_pos]
    have e : q + ((0 : ℚ) + 1) * quant_step t = q + quant_step t := by ring
    push_cast at hreq
    rw [e] at hreq
    exact hreq
  | succ n ih =>
    intro q hq hreq
    by_cases hc : cap < required_funds_conservative p (q + quant_step t) f
    · exact ⟨q, by simp only [bump_loop]; rw [tick_add_step hq, if_pos hc]⟩
    · have hreq2 : cap < required_funds_conservative p
          ((q + quant_step t) + ((n : ℚ) + 1) * quant_step t) f := by
        have e : (q + quant_step t) + ((n : ℚ) + 1) * quant_step t
            = q + (((n : ℕ) + 1 : ℕ) + 1 : ℚ) * quant_step t := by push_cast; ring
        rw [e]
        exact hreq
      obtain ⟨q', hq'⟩ := ih (tick_add_step hq) hreq2
      exact ⟨q', by simp only [bump_loop]; rw [tick_add_step hq, if_neg hc]; exact hq'⟩

/-- Termination of the bump loop: with a positive execution price and a
non-negative fee rate, some finite fuel always suffices for the loop to break
on its own (claim C10's content). -/
lemma bump_loop_total {p f cap : ℚ} {t : ℕ} {q : ℚ} (hp : 0 < p) (hf : 0 ≤ f)
    (hq0 : 0 ≤ q) (htick : quantize_down t q = q) :
    ∃ n q', bump_loop p f cap t n q = some q' := by
  obtain ⟨n, hn⟩ := exists_nat_gt ((cap + 1 / 10 ^ 2 - p * q) / (p * quant_step t))
  have hps : 0 < p * quant_step t := mul_pos hp (step_pos t)
  have hx0 : (0:ℚ) ≤ q + ((n : ℚ) + 1) * quant_step t := by
    have hs : (0:ℚ) ≤ ((n : ℚ) + 1) * quant_step t :=
      mul_nonneg (by positivity) (step_pos t).le
    linarith
  have hkey : cap < required_funds_conservative p (q + ((n : ℚ) + 1) * quant_step t) f := by
    have hlin : cap + 1 / 10 ^ 2 - p * q < ((n : ℚ) + 1) * (p * quant_step t) := by
      have h := (div_lt_iff₀ hps).mp hn
      have e : ((n : ℚ) + 1) * (p * quant_step t)
          = (n : ℚ) * (p * quant_step t) + p * quant_step t := by ring
      rw [e]
      linarith
    have hgrow : p * (q + ((n : ℚ) + 1) * quant_step t) - 1 / 10 ^ 2 <
        required_funds_conservative p (q + ((n : ℚ) + 1) * quant_step t) f :=
      lt_required (mul_nonneg hp.le hx0) hf
    have e2 : p * (q + ((n : ℚ) + 1) * quant_step t)
        = p * q + ((n : ℚ) + 1) * (p * quant_step t) := by ring
    rw [e2] at hgrow
    linarith
  obtain ⟨q', hq'⟩ := bump_loop_exits n htick hkey
  exact ⟨n + 1, q', hq'⟩

/-! ### Inversion lemmas for `plan_order_to_cap` -/

lemma finalize_planned {a s : String} {gc p f q : ℚ} {pl : OrderPlan}
    (h : finalize_plan a s gc p f q = PlanResult.planned pl) :
    pl.required_conservative = required_funds_conservative p q f ∧
    required_funds_conservative p q f ≤ gc ∧ pl.crypto_amount = q ∧ pl.gross_cap = gc := by
  simp only [finalize_plan] at h
  by_cases hc : gc < required_funds_conservative p q f
  · rw [if_pos hc] at h; simp at h
  · rw [if_neg hc] at h
    cases h
    exact ⟨rfl, not_lt.mp hc, rfl, rfl⟩

lemma finalize_skipped {a s : String} {gc p f q : ℚ}
    (h : gc < required_funds_conservative p q f) :
    finalize_plan a s gc p f q =
      PlanResult.skipped (a ++ ": cannot fit within cap under conservative hold") := by
  simp only [finalize_plan]
  rw [if_pos h]

lemma finalize_fits {a s : String} {gc p f q : ℚ}
    (h : required_funds_conservative p q f ≤ gc) :
    finalize_plan a s gc p f q = PlanResult.planned
      { asset := a
        gross_cap := gc
        execution_price := p
        crypto_amount := q
        order_cost := compute_cost_floor p q
        order_fee_floor := compute_fee_floor (compute_cost_floor p q) f
        total_cost_floor := quantize_down 2 (compute_cost_floor p q +
          compute_fee_floor (compute_cost_floor p q) f)
        fee_conservative := compute_fee_ceil (compute_cost_floor p q) f
        required_conservative := required_funds_conservative p q f
        order_payload :=
          { symbol := s
            amount := q
            price := p
            side := "buy"
            order_type := "exchange limit"
            options := ["maker-or-cancel"] } } := by
  simp only [finalize_plan]
  rw [if_neg (not_lt.mpr h)]

/-- Any planned (non-skipped) result of `plan_order_to_cap` has its
conservative requirement within the quantized cap, and that requirement is an
exact amount of cents. -/
lemma plan_planned {fuel : ℕ} {asset symbol : String} {gross_cap : ℚ} {t : ℕ}
    {minq slip fee ask : ℚ} {pl : OrderPlan}
    (h : plan_order_to_cap fuel asset gross_cap symbol t minq slip fee ask
        = some (PlanResult.planned pl)) :
    pl.required_conservative ≤ quantize_down 2 gross_cap ∧
    is_mult 2 pl.required_conservative := by
  simp only [plan_order_to_cap] at h
  by_cases h1 : quantize_down 2 gross_cap ≤ 0
  · rw [if_pos h1] at h; simp at h
  · rw [if_neg h1] at h
    by_cases h2 : get_execution_price ask slip * (1 + fee) ≤ 0
    · rw [if_pos h2] at h; simp at h
    · rw [if_neg h2] at h
      by_cases h3 : quantize_down t (quantize_down 2 gross_cap /
          (get_execution_price ask slip * (1 + fee))) < minq
      · rw [if_pos h3] at h; simp at h
      · rw [if_neg h3] at h
        rcases hb : bump_loop (get_execution_price ask slip) fee
            (quantize_down 2 gross_cap) t fuel
            (quantize_down t (quantize_down 2 gross_cap /
              (get_execution_price ask slip * (1 + fee)))) with _ | q
        · rw [hb] at h; simp at h
        · rw [hb] at h
          simp only [Option.map_some'] at h
          have hfin := Option.some.inj h
          obtain ⟨e1, e2, _, _⟩ := finalize_planned hfin
          rw [e1]
          exact ⟨e2, required_is_mult _ _ _⟩

/-- The below-minimum skip branch of `plan_order_to_cap` (claim C7). -/
lemma plan_below_min {fuel : ℕ} {asset symbol : String} {gross_cap : ℚ} {t : ℕ}
    {minq slip fee ask : ℚ}
    (h1 : 0 < quantize_down 2 gross_cap)
    (h2 : 0 < get_execution_price ask slip * (1 + fee))
    (h3 : quantize_down t (quantize_down 2 gross_cap /
        (get_execution_price ask slip * (1 + fee))) < minq) :
    plan_order_to_cap fuel asset gross_cap symbol t minq slip fee ask
      = some (PlanResult.skipped (asset ++ ": below min quantity")) := by
  simp only [plan_order_to_cap]
  rw [if_neg (not_le.mpr h1), if_neg (not_le.mpr h2), if_pos h3]

/-! ### Module-level configuration constants (lines 14-37 of the source) -/

def TOTAL_DEPOSIT : ℚ := 170

def MAX_BUY : ℚ := quantize_down 2 (TOTAL_DEPOSIT / 2)

def BTC_PERCENTAGE : ℚ := 66

def ETH_PERCENTAGE : ℚ := 34

def BTC_TARGET : ℚ := quantize_half_up 2 (MAX_BUY * (BTC_PERCENTAGE / 100))

def ETH_TARGET : ℚ := quantize_half_up 2 (MAX_BUY - BTC_TARGET)

lemma MAX_BUY_eq : MAX_BUY = 85 := by
  unfold MAX_BUY TOTAL_DEPOSIT
  rw [quantize_down_eval (by norm_num)]
  norm_num

lemma BTC_TARGET_eq : BTC_TARGET = 561 / 10 := by
  unfold BTC_TARGET BTC_PERCENTAGE
  rw [MAX_BUY_eq, quantize_half_up_eval (by norm_num)]
  norm_num

lemma ETH_TARGET_eq : ETH_TARGET = 289 / 10 := by
  unfold ETH_TARGET
  rw [MAX_BUY_eq, BTC_TARGET_eq, quantize_half_up_eval (by norm_num)]
  norm_num

/-! ### GeminiClient nonce (shared/gemini_client.py) -/

/-- Embedding of `GeminiClient.get_nonce`: increments the stored counter and returns the
new value; the pair is `(returned nonce, new counter state)`.  The function
reads no clock — the wall clock is only consulted once, at construction, to
seed the counter. -/
def get_nonce (counter : ℤ) : ℤ × ℤ := (counter + 1, counter + 1)

/-- Counter state of one client instance after `n` calls to `get_nonce`,
starting from the construction-time seed `int(time.time() * 1000)`. -/
def nonce_state (seed : ℤ) : ℕ → ℤ
  | 0 => seed
  | n + 1 => (get_nonce (nonce_state seed n)).2

/-- Nonce returned by the `n`-th call (0-indexed) to `get_nonce`. -/
def nonce_at (seed : ℤ) (n : ℕ) : ℤ := (get_nonce (nonce_state seed n)).1

/-- Observable authentication pair of the `n`-th private request in
`make_private_post_request` / `make_private_get_request`: the nonce from
`get_nonce` and the timestamp read from the wall clock at send time (`clock n`
models whatever `int(time.time())` returns then, including rollback). -/
def private_request_headers (seed : ℤ) (clock : ℕ → ℤ) (n : ℕ) : ℤ × ℤ :=
  (nonce_at seed n, clock n)

lemma nonce_state_eq (seed : ℤ) : ∀ n : ℕ, nonce_state seed n = seed + n := by
  intro n
  induction n with
  | zero => simp [nonce_state]
  | succ n ih => simp [nonce_state, get_nonce, ih]; ring

lemma nonce_at_eq (seed : ℤ) (n : ℕ) : nonce_at seed n = seed + n + 1 := by
  unfold nonce_at get_nonce
  rw [nonce_state_eq]

/-! ### The Lambda handler (lambda_handler, lines 222-324) -/

/-- The environment a single handler invocation observes: the fee-tier call
(`Except.error` = it raised, so the source falls back to 20 bps), the values
successive `get_balance` reads would return (the source reads index 0 only),
the two ticker asks, and the outcomes of the two `place_order` calls
(`Except.error` = the call raised). -/
structure Env where
  feeBps : Except String ℤ
  balances : ℕ → ℚ
  askBTC : ℚ
  askETH : ℚ
  placeBTC : Except String String
  placeETH : Except String String

/-- Maker fee bps resolved by step 1 of the handler (fallback 20 on failure). -/
def maker_bps_of : Except String ℤ → ℤ
  | Except.ok bps => bps
  | Except.error _ => 20

/-- Fee rate resolved by step 1 of the handler:
`(Decimal(maker_bps) / 10000).quantize(1e-8, ROUND_DOWN)`, or the hardcoded
`0.0020` fallback when the fee-tier fetch raised. -/
def fee_rate_of : Except String ℤ → ℚ
  | Except.ok bps => quantize_down 8 ((bps : ℚ) / 10000)
  | Except.error _ => 2 / 1000

/-- The `btc_required` / `eth_required` extraction: 0 for a skipped plan, the
plan's `required_conservative` otherwise. -/
def required_or_zero : PlanResult → ℚ
  | PlanResult.skipped _ => 0
  | PlanResult.planned pl => pl.required_conservative

/-- The `remaining_budget` after the BTC conservative hold (lines 266-268):
quantized down to cents and clamped at zero. -/
def remaining_budget_of (btc_required : ℚ) : ℚ :=
  if quantize_down 2 (MAX_BUY - btc_required) < 0 then 0
  else quantize_down 2 (MAX_BUY - btc_required)

/-- The `eth_cap` of step 4 (line 271): minimum of the ETH target and the remaining budget,
quantized down to cents. -/
def eth_cap_of (btc_required : ℚ) : ℚ :=
  quantize_down 2 (min ETH_TARGET (remaining_budget_of btc_required))

/-- Step 4 of the handler: the ETH plan is the no-budget skip dict when the
cap is non-positive, otherwise a `plan_order_to_cap` run with the ETH
defaults. -/
def eth_plan_opt (fuel : ℕ) (eth_cap fee_rate ask : ℚ) : Option PlanResult :=
  if eth_cap ≤ 0 then
    some (PlanResult.skipped "No remaining budget after BTC conservative hold")
  else plan_order_to_cap fuel "ETH" eth_cap "ethgusd" 6 (1/1000) (998/1000) fee_rate ask

/-- State of the handler after steps 1-5 (before any order placement):
either an early return (400 insufficient funds / 500 safety stop), or the data
that step 6 places orders from. -/
inductive Phase1Out where
  | insufficient (gusd_before : ℚ)
  | stop (total_required : ℚ)
  | go (maker_bps : ℤ) (fee_rate gusd_before : ℚ) (btc_plan eth_plan : PlanResult)
      (eth_cap btc_required eth_required total_required : ℚ)

/-- Steps 1-5 of `lambda_handler`: fee tier, balance guard, BTC plan to
`BTC_TARGET`, remaining-budget-based ETH cap and plan, and the final sanity
check on the conservative total.  `none` = a sizing loop ran out of fuel. -/
def phase1 (feeBps : Except String ℤ) (bal0 askBTC askETH : ℚ) (fuel : ℕ) :
    Option Phase1Out :=
  if quantize_down 2 bal0 < MAX_BUY then
    some (Phase1Out.insufficient (quantize_down 2 bal0))
  else
    match plan_order_to_cap fuel "BTC" BTC_TARGET "btcgusd" 8 (1/100000) (999/1000)
        (fee_rate_of feeBps) askBTC with
    | none => none
    | some btcPlan =>
      match eth_plan_opt fuel (eth_cap_of (required_or_zero btcPlan))
          (fee_rate_of feeBps) askETH with
      | none => none
      | some ethPlan =>
        if MAX_BUY < quantize_up 2 (required_or_zero btcPlan + required_or_zero ethPlan) then
          some (Phase1Out.stop
            (quantize_up 2 (required_or_zero btcPlan + required_or_zero ethPlan)))
        else
          some (Phase1Out.go (maker_bps_of feeBps) (fee_rate_of feeBps)
            (quantize_down 2 bal0) btcPlan ethPlan
            (eth_cap_of (required_or_zero btcPlan)) (required_or_zero btcPlan)
            (required_or_zero ethPlan)
            (quantize_up 2 (required_or_zero btcPlan + required_or_zero ethPlan)))

/-- The audit body of a 200 response (step 6 + the `body` dict). -/
structure Body where
  maker_bps : ℤ
  fee_rate : ℚ
  gusd_before : ℚ
  btc_cap : ℚ
  eth_cap : ℚ
  btc_required : ℚ
  eth_required : ℚ
  total_required : ℚ
  btc_result : PlaceResult
  eth_result : PlaceResult
deriving DecidableEq, Repr

/-- The three returns of `lambda_handler`: 400 insufficient funds, the 500
internal safety stop, and the 200 structured body. -/
inductive LambdaResponse where
  | insufficientFunds (gusd_before : ℚ)
  | safetyStop (total_required : ℚ)
  | success (body : Body)
deriving DecidableEq, Repr

/-- Step 6: placement of both planned orders and assembly of the response. -/
def assemble (env : Env) : Phase1Out → LambdaResponse
  | Phase1Out.insufficient g => LambdaResponse.insufficientFunds g
  | Phase1Out.stop tot => LambdaResponse.safetyStop tot
  | Phase1Out.go bps fr g btcPlan ethPlan ecap br er tot =>
    LambdaResponse.success
      { maker_bps := bps
        fee_rate := fr
        gusd_before := g
        btc_cap := BTC_TARGET
        eth_cap := ecap
        btc_required := br
        eth_required := er
        total_required := tot
        btc_result := place_planned_order btcPlan env.placeBTC
        eth_result := place_planned_order ethPlan env.placeETH }

/-- Embedding of `lambda_handler` from recurring_buy_crypto.py over an explicit exchange
environment; `fuel` bounds the sizing loops (`none` = fuel exhausted). -/
def lambda_handler (env : Env) (fuel : ℕ) : Option LambdaResponse :=
  (phase1 env.feeBps (env.balances 0) env.askBTC env.askETH fuel).map (assemble env)

/-- The `eth_cap` field of a 200 response, if the run produced one. -/
def ethCapOf : Option LambdaResponse → Option ℚ
  | some (LambdaResponse.success b) => some b.eth_cap
  | _ => none

/-- The `btc_required` field of a 200 response, if the run produced one. -/
def btcRequiredOf : Option LambdaResponse → Option ℚ
  | some (LambdaResponse.success b) => some b.btc_required
  | _ => none

/-- The `eth_result` field of a 200 response, if the run produced one. -/
def ethResultOf : Option LambdaResponse → Option PlaceResult
  | some (LambdaResponse.success b) => some b.eth_result
  | _ => none

/-- Whether the invocation returned the 200 structured body. -/
def is_success : Option LambdaResponse → Bool
  | some (LambdaResponse.success _) => true
  | _ => false

/-- The `required_conservative` of a planned (non-skipped) sizing result. -/
def planned_required : Option PlanResult → Option ℚ
  | some (PlanResult.planned pl) => some pl.required_conservative
  | _ => none

/-- The `crypto_amount` of a planned (non-skipped) sizing result. -/
def planned_amount : Option PlanResult → Option ℚ
  | some (PlanResult.planned pl) => some pl.crypto_amount
  | _ => none

/-! ### Handler-level lemmas -/

lemma BTC_TARGET_is_mult : is_mult 2 BTC_TARGET := ⟨5610, by rw [BTC_TARGET_eq]; norm_num⟩

lemma ETH_TARGET_is_mult : is_mult 2 ETH_TARGET := ⟨2890, by rw [ETH_TARGET_eq]; norm_num⟩

lemma MAX_BUY_is_mult : is_mult 2 MAX_BUY := ⟨8500, by rw [MAX_BUY_eq]; norm_num⟩

/-- The BTC leg of the handler: whatever the BTC plan is, its conservative
hold is an exact cent amount bounded by `BTC_TARGET`. -/
lemma btc_req_le {fuel : ℕ} {fee ask : ℚ} {r : PlanResult}
    (h : plan_order_to_cap fuel "BTC" BTC_TARGET "btcgusd" 8 (1/100000) (999/1000)
        fee ask = some r) :
    required_or_zero r ≤ BTC_TARGET ∧ is_mult 2 (required_or_zero r) := by
  cases r with
  | skipped s =>
    refine ⟨?_, is_mult_zero 2⟩
    show (0:ℚ) ≤ BTC_TARGET
    rw [BTC_TARGET_eq]; norm_num
  | planned pl =>
    obtain ⟨hle, hm⟩ := plan_planned h
    rw [quantize_down_eq_of_mult BTC_TARGET_is_mult] at hle
    exact ⟨hle, hm⟩

/-- The ETH leg of the handler: the ETH hold is an exact cent amount and is
either zero (skip) or within the quantized ETH cap. -/
lemma eth_req_le {fuel : ℕ} {cap fee ask : ℚ} {r : PlanResult}
    (h : eth_plan_opt fuel cap fee ask = some r) :
    is_mult 2 (required_or_zero r) ∧
      (required_or_zero r = 0 ∨ required_or_zero r ≤ quantize_down 2 cap) := by
  unfold eth_plan_opt at h
  by_cases hc : cap ≤ 0
  · rw [if_pos hc] at h
    have hr := Option.some.inj h
    subst hr
    exact ⟨is_mult_zero 2, Or.inl rfl⟩
  · rw [if_neg hc] at h
    cases r with
    | skipped s => exact ⟨is_mult_zero 2, Or.inl rfl⟩
    | planned pl =>
      obtain ⟨hle, hm⟩ := plan_planned h
      exact ⟨hm, Or.inr hle⟩

/-- The ETH cap computed from the BTC hold never exceeds what is left of
`MAX_BUY`, and is an exact cent amount. -/
lemma eth_cap_le {br : ℚ} (hm : is_mult 2 br) (hle : br ≤ BTC_TARGET) :
    eth_cap_of br ≤ MAX_BUY - br ∧ is_mult 2 (eth_cap_of br) := by
  have hsub : is_mult 2 (MAX_BUY - br) := is_mult_sub MAX_BUY_is_mult hm
  have hr0 : quantize_down 2 (MAX_BUY - br) = MAX_BUY - br := quantize_down_eq_of_mult hsub
  have hpos : 0 ≤ MAX_BUY - br := by
    rw [MAX_BUY_eq]; rw [BTC_TARGET_eq] at hle; linarith
  unfold eth_cap_of remaining_budget_of
  rw [hr0, if_neg (not_lt.mpr hpos)]
  have hminm : is_mult 2 (min ETH_TARGET (MAX_BUY - br)) :=
    is_mult_min ETH_TARGET_is_mult hsub
  rw [quantize_down_eq_of_mult hminm]
  exact ⟨min_le_right _ _, hminm⟩

/-- The conservative total checked at step 5 never exceeds `MAX_BUY`, so the
internal safety stop is dead code: `phase1` cannot return it. -/
lemma phase1_not_stop {feeBps : Except String ℤ} {bal0 aB aE : ℚ} {fuel : ℕ} {tot : ℚ} :
    phase1 feeBps bal0 aB aE fuel ≠ some (Phase1Out.stop tot) := by
  intro h
  unfold phase1 at h
  by_cases h1 : quantize_down 2 bal0 < MAX_BUY
  · rw [if_pos h1] at h; simp at h
  · rw [if_neg h1] at h
    rcases hb : plan_order_to_cap fuel "BTC" BTC_TARGET "btcgusd" 8 (1/100000)
        (999/1000) (fee_rate_of feeBps) aB with _ | btcPlan
    · rw [hb] at h; simp at h
    · simp only [hb] at h
      rcases he : eth_plan_opt fuel (eth_cap_of (required_or_zero btcPlan))
          (fee_rate_of feeBps) aE with _ | ethPlan
      · rw [he] at h; simp at h
      · simp only [he] at h
        obtain ⟨hbrle, hbrm⟩ := btc_req_le hb
        obtain ⟨hem, her⟩ := eth_req_le he
        obtain ⟨hecle, hecm⟩ := eth_cap_le hbrm hbrle
        have htot_eq : quantize_up 2 (required_or_zero btcPlan + required_or_zero ethPlan)
            = required_or_zero btcPlan + required_or_zero ethPlan :=
          quantize_up_eq_of_mult (is_mult_add hbrm hem)
        have hb85 : required_or_zero btcPlan ≤ MAX_BUY := by
          rw [MAX_BUY_eq]; rw [BTC_TARGET_eq] at hbrle; linarith
        have htot_le : required_or_zero btcPlan + required_or_zero ethPlan ≤ MAX_BUY := by
          rcases her with h0 | hle2
          · rw [h0, add_zero]; exact hb85
          · rw [quantize_down_eq_of_mult hecm] at hle2
            have := hle2.trans hecle
            linarith
        by_cases hs : MAX_BUY < quantize_up 2 (required_or_zero btcPlan +
            required_or_zero ethPlan)
        · rw [htot_eq] at hs
          exact absurd hs (not_lt.mpr htot_le)
        · rw [if_neg hs] at h; simp at h


/-! ### A fully evaluated reference run

A concrete environment in which the handler performs a complete successful
run: fee tier 20 bps, 85 GUSD available before orders (and 0 on any later
read), BTC ask 5,000,000 (so the sized BTC order consumes most of its cap),
ETH ask 50,000 (so the ETH leg skips below the minimum quantity). -/
def envW : Env :=
  { feeBps := Except.ok 20
    balances := fun n => if n = 0 then 85 else 0
    askBTC := 5000000
    askETH := 50000
    placeBTC := Except.ok "ok"
    placeETH := Except.ok "ok" }

/-- The BTC plan produced in `envW`: execution price 4,995,000.00, quantity
0.00001120, principal cost 55.94, conservative hold 56.06 against cap 56.10. -/
def btcPlanW : OrderPlan :=
  { asset := "BTC"
    gross_cap := 561/10
    execution_price := 4995000
    crypto_amount := 112/10000000
    order_cost := 5594/100
    order_fee_floor := 11/100
    total_cost_floor := 5605/100
    fee_conservative := 12/100
    required_conservative := 5606/100
    order_payload :=
      { symbol := "btcgusd"
        amount := 112/10000000
        price := 4995000
        side := "buy"
        order_type := "exchange limit"
        options := ["maker-or-cancel"] } }

lemma fee_rate_of_ok20 : fee_rate_of (Except.ok 20) = 2/1000 := by
  simp only [fee_rate_of]
  rw [quantize_down_eval (by norm_num)]
  norm_num

lemma gc_btc_eval : quantize_down 2 BTC_TARGET = 561/10 := by
  rw [quantize_down_eq_of_mult BTC_TARGET_is_mult, BTC_TARGET_eq]

lemma exec_price_btcW : get_execution_price 5000000 (999/1000) = 4995000 := by
  unfold get_execution_price
  rw [quantize_down_eval (by norm_num)]
  norm_num

lemma q0_btcW : quantize_down 8 ((561/10 : ℚ) / (4995000 * (1 + 2/1000))) = 112/10000000 := by
  rw [quantize_down_eval (by norm_num)]
  norm_num

lemma cost_btcW : compute_cost_floor 4995000 (112/10000000) = 5594/100 := by
  rw [compute_cost_floor_def, quantize_down_eval (by norm_num)]
  norm_num

lemma fee_ceil_btcW : compute_fee_ceil (5594/100) (2/1000) = 12/100 := by
  rw [compute_fee_ceil_def, quantize_up_eval (by norm_num)]
  norm_num

lemma req_btcW : required_funds_conservative 4995000 (112/10000000) (2/1000) = 5606/100 := by
  rw [required_eq, cost_btcW, fee_ceil_btcW]
  norm_num

lemma cost_btcW_next : compute_cost_floor 4995000 (1121/100000000) = 5599/100 := by
  rw [compute_cost_floor_def, quantize_down_eval (by norm_num)]
  norm_num

lemma fee_ceil_btcW_next : compute_fee_ceil (5599/100) (2/1000) = 12/100 := by
  rw [compute_fee_ceil_def, quantize_up_eval (by norm_num)]
  norm_num

lemma req_btcW_next : required_funds_conservative 4995000 (1121/100000000) (2/1000)
    = 5611/100 := by
  rw [required_eq, cost_btcW_next, fee_ceil_btcW_next]
  norm_num

lemma tick_btcW : quantize_down 8 (112/10000000 : ℚ) = 112/10000000 :=
  quantize_down_eq_of_mult ⟨1120, by norm_num⟩

/-- In `envW` the bump loop breaks at once: the very next tick would hold
56.11 > 56.10. -/
lemma bump_btcW : bump_loop 4995000 (2/1000) (561/10) 8 2 (112/10000000)
    = some (112/10000000) := by
  simp only [bump_loop]
  rw [tick_add_step tick_btcW]
  have hcand : (112/10000000 : ℚ) + quant_step 8 = 1121/100000000 := by
    unfold quant_step; norm_num
  rw [hcand, req_btcW_next, if_pos (by norm_num)]

lemma fee_floor_btcW : compute_fee_floor (5594/100) (2/1000) = 11/100 := by
  unfold compute_fee_floor
  rw [quantize_down_eval (by norm_num)]
  norm_num

lemma total_floor_btcW : quantize_down 2 ((5594/100 : ℚ) + 11/100) = 5605/100 := by
  rw [quantize_down_eval (by norm_num)]
  norm_num

/-- Full evaluation of the BTC sizing call made by the handler in `envW`. -/
lemma btc_plan_eval : plan_order_to_cap 2 "BTC" BTC_TARGET "btcgusd" 8 (1/100000)
    (999/1000) (2/1000) 5000000 = some (PlanResult.planned btcPlanW) := by
  simp only [plan_order_to_cap, gc_btc_eval, exec_price_btcW]
  rw [if_neg (by norm_num : ¬ (561/10 : ℚ) ≤ 0)]
  rw [if_neg (by norm_num : ¬ (4995000 : ℚ) * (1 + 2/1000) ≤ 0)]
  rw [q0_btcW]
  rw [if_neg (by norm_num : ¬ (112/10000000 : ℚ) < 1/100000)]
  rw [bump_btcW, Option.map_some']
  rw [finalize_fits (by rw [req_btcW]; norm_num)]
  rw [cost_btcW, req_btcW, fee_floor_btcW, fee_ceil_btcW, total_floor_btcW]
  rfl

lemma exec_price_ethW : get_execution_price 50000 (998/1000) = 49900 := by
  unfold get_execution_price
  rw [quantize_down_eval (by norm_num)]
  norm_num

/-- Full evaluation of the ETH sizing call made by the handler in `envW`:
the lower-bound quantity 0.000578 is below the 0.001 minimum, so it skips. -/
lemma eth_plan_eval : eth_plan_opt 2 (289/10) (2/1000) 50000
    = some (PlanResult.skipped "ETH: below min quantity") := by
  unfold eth_plan_opt
  rw [if_neg (by norm_num : ¬ (289/10 : ℚ) ≤ 0)]
  have e1 : quantize_down 2 ((289:ℚ)/10) = 289/10 :=
    quantize_down_eq_of_mult ⟨2890, by norm_num⟩
  have h1 : (0:ℚ) < quantize_down 2 ((289:ℚ)/10) := by rw [e1]; norm_num
  have h2 : (0:ℚ) < get_execution_price 50000 (998/1000) * (1 + 2/1000) := by
    rw [exec_price_ethW]; norm_num
  have h3 : quantize_down 6 (quantize_down 2 ((289:ℚ)/10) /
      (get_execution_price 50000 (998/1000) * (1 + 2/1000))) < 1/1000 := by
    rw [e1, exec_price_ethW]
    have e2 : (289/10 : ℚ) / (49900 * (1 + 2/1000)) = 289/499998 := by norm_num
    rw [e2, quantize_down_eval (by norm_num)]
    norm_num
  exact plan_below_min h1 h2 h3

lemma eth_cap_of_eval : eth_cap_of (5606/100) = 289/10 := by
  unfold eth_cap_of remaining_budget_of
  rw [MAX_BUY_eq]
  have h1 : (85 : ℚ) - 5606/100 = 2894/100 := by norm_num
  have h2 : quantize_down 2 ((2894:ℚ)/100) = 2894/100 :=
    quantize_down_eq_of_mult ⟨2894, by norm_num⟩
  rw [h1, h2]
  rw [if_neg (by norm_num : ¬ (2894/100 : ℚ) < 0)]
  have h3 : min ETH_TARGET ((2894:ℚ)/100) = 289/10 := by
    rw [ETH_TARGET_eq]
    exact min_eq_left (by norm_num)
  rw [h3]
  exact quantize_down_eq_of_mult ⟨2890, by norm_num⟩

/-- Full evaluation of steps 1-5 of the handler in `envW`. -/
lemma phase1_eval : phase1 (Except.ok 20) 85 5000000 50000 2
    = some (Phase1Out.go 20 (2/1000) 85 (PlanResult.planned btcPlanW)
        (PlanResult.skipped "ETH: below min quantity") (289/10) (5606/100) 0
        (5606/100)) := by
  unfold phase1
  rw [fee_rate_of_ok20]
  rw [quantize_down_eq_of_mult (⟨8500, by norm_num⟩ : is_mult 2 (85:ℚ))]
  rw [if_neg (by rw [MAX_BUY_eq]; norm_num : ¬ (85:ℚ) < MAX_BUY)]
  rw [btc_plan_eval]
  have hro : required_or_zero (PlanResult.planned btcPlanW) = 5606/100 := rfl
  simp only [hro, eth_cap_of_eval, eth_plan_eval]
  have hro2 : required_or_zero (PlanResult.skipped "ETH: below min quantity") = 0 := rfl
  simp only [hro2, add_zero]
  rw [quantize_up_eq_of_mult (⟨5606, by norm_num⟩ : is_mult 2 (5606/100 : ℚ))]
  rw [if_neg (by rw [MAX_BUY_eq]; norm_num : ¬ MAX_BUY < (5606/100:ℚ))]
  rfl

/-- The 200 body returned by the handler in `envW`. -/
def bodyW : Body :=
  { maker_bps := 20
    fee_rate := 2/1000
    gusd_before := 85
    btc_cap := BTC_TARGET
    eth_cap := 289/10
    btc_required := 5606/100
    eth_required := 0
    total_required := 5606/100
    btc_result := PlaceResult.placed btcPlanW "ok"
    eth_result := PlaceResult.skipped "ETH: below min quantity" }

/-- Full evaluation of `lambda_handler` in `envW`. -/
lemma handler_eval : lambda_handler envW 2 = some (LambdaResponse.success bodyW) :=
  congrArg (Option.map (assemble envW)) phase1_eval

/-! ### Inversion of a full `go` run of the handler -/

lemma eth_cap_formula {br : ℚ} (hm : is_mult 2 br) (hle : br ≤ BTC_TARGET) :
    eth_cap_of br = min ETH_TARGET (MAX_BUY - br) := by
  have hsub : is_mult 2 (MAX_BUY - br) := is_mult_sub MAX_BUY_is_mult hm
  have hr0 : quantize_down 2 (MAX_BUY - br) = MAX_BUY - br := quantize_down_eq_of_mult hsub
  have hpos : 0 ≤ MAX_BUY - br := by
    rw [MAX_BUY_eq]; rw [BTC_TARGET_eq] at hle; linarith
  unfold eth_cap_of remaining_budget_of
  rw [hr0, if_neg (not_lt.mpr hpos)]
  exact quantize_down_eq_of_mult (is_mult_min ETH_TARGET_is_mult hsub)

lemma phase1_go_inv {feeBps : Except String ℤ} {bal0 aB aE : ℚ} {fuel : ℕ}
    {bps : ℤ} {fr g0 : ℚ} {bp ep : PlanResult} {ecap br er tot : ℚ}
    (h : phase1 feeBps bal0 aB aE fuel
        = some (Phase1Out.go bps fr g0 bp ep ecap br er tot)) :
    ecap = eth_cap_of br ∧ br ≤ BTC_TARGET ∧ is_mult 2 br := by
  unfold phase1 at h
  by_cases h1 : quantize_down 2 bal0 < MAX_BUY
  · rw [if_pos h1] at h; simp at h
  · rw [if_neg h1] at h
    rcases hb : plan_order_to_cap fuel "BTC" BTC_TARGET "btcgusd" 8 (1/100000)
        (999/1000) (fee_rate_of feeBps) aB with _ | btcPlan
    · rw [hb] at h; simp at h
    · simp only [hb] at h
      rcases he : eth_plan_opt fuel (eth_cap_of (required_or_zero btcPlan))
          (fee_rate_of feeBps) aE with _ | ethPlan
      · rw [he] at h; simp at h
      · simp only [he] at h
        by_cases hs : MAX_BUY < quantize_up 2 (required_or_zero btcPlan +
            required_or_zero ethPlan)
        · rw [if_pos hs] at h; simp at h
        · rw [if_neg hs] at h
          obtain ⟨hbrle, hbrm⟩ := btc_req_le hb
          have h' := Option.some.inj h
          cases h'
          exact ⟨rfl, hbrle, hbrm⟩

/-! ### The claims -/

/-- C1: every non-skipped order plan produced by `plan_order_to_cap` with a
non-negative cap has its conservative total cost (`required_conservative`,
floor-to-cent principal plus ceil-to-cent fee) at most the gross cap assigned
to that asset. -/
theorem c1_plan_fits_cap (fuel : ℕ) (asset symbol : String) (gross_cap : ℚ)
    (tick_size : ℕ) (min_quantity slippage_factor fee_rate ask r : ℚ)
    (hcap : 0 ≤ gross_cap)
    (h : planned_required (plan_order_to_cap fuel asset gross_cap symbol tick_size
        min_quantity slippage_factor fee_rate ask) = some r) :
    r ≤ gross_cap := by
  rcases hres : plan_order_to_cap fuel asset gross_cap symbol tick_size
      min_quantity slippage_factor fee_rate ask with _ | pr
  · rw [hres] at h; simp [planned_required] at h
  · rw [hres] at h
    cases pr with
    | skipped s => simp [planned_required] at h
    | planned pl =>
      simp only [planned_required] at h
      have hr := Option.some.inj h
      obtain ⟨hle, _⟩ := plan_planned hres
      calc r = pl.required_conservative := hr.symm
        _ ≤ quantize_down 2 gross_cap := hle
        _ ≤ gross_cap := quantize_down_le_self hcap

/-- C1 witness: the reference BTC run (cap 56.10) plans a hold of 56.06,
within the cap. -/
theorem c1_plan_fits_cap_witness :
    (0:ℚ) ≤ BTC_TARGET ∧ (5606/100 : ℚ) ≤ BTC_TARGET :=
  ⟨by rw [BTC_TARGET_eq]; norm_num,
    c1_plan_fits_cap 2 "BTC" "btcgusd" BTC_TARGET 8 (1/100000) (999/1000) (2/1000)
      5000000 (5606/100) (by rw [BTC_TARGET_eq]; norm_num)
      (by rw [btc_plan_eval]; rfl)⟩

lemma c2_cex_exec_price : get_execution_price (100099/10) 1 = 100099/10 := by
  unfold get_execution_price
  rw [quantize_down_eval (by norm_num)]
  norm_num

lemma c2_cex_required : required_funds_conservative (100099/10) (1/1000) (2/1000)
    = 1002/100 := by
  have hc : compute_cost_floor (100099/10) (1/1000) = 10 := by
    rw [compute_cost_floor_def, quantize_down_eval (by norm_num)]
    norm_num
  have hf : compute_fee_ceil (10:ℚ) (2/1000) = 2/100 := by
    rw [compute_fee_ceil_def, quantize_up_eval (by norm_num)]
    norm_num
  rw [required_eq, hc, hf]
  norm_num

/-- C2 counterexample: with cap 10.02, ask 10009.90, slippage 1, fee 0.002,
tick 6, minQuantity 0.001, the tick-multiple quantity 0.001 ≥ minQuantity has
conservative total cost 10.02 ≤ cap, yet `plan_order_to_cap` returns the
below-minimum Skip, because its lower-bound quantity 0.000999 is below the
minimum.  So a valid quantity exists but the result is a Skip. -/
theorem c2_counterexample :
    required_funds_conservative (get_execution_price (100099/10) 1) (1/1000) (2/1000)
      ≤ quantize_down 2 (1002/100)
    ∧ quantize_down 6 ((1:ℚ)/1000) = 1/1000
    ∧ plan_order_to_cap 1 "ETH" (1002/100) "ethgusd" 6 (1/1000) 1 (2/1000) (100099/10)
      = some (PlanResult.skipped "ETH: below min quantity") := by
  have hgc : quantize_down 2 ((1002:ℚ)/100) = 1002/100 :=
    quantize_down_eq_of_mult ⟨1002, by norm_num⟩
  refine ⟨?_, quantize_down_eq_of_mult ⟨1000, by norm_num⟩, ?_⟩
  · rw [c2_cex_exec_price, c2_cex_required, hgc]
  · have h1 : (0:ℚ) < quantize_down 2 ((1002:ℚ)/100) := by rw [hgc]; norm_num
    have h2 : (0:ℚ) < get_execution_price (100099/10) 1 * (1 + 2/1000) := by
      rw [c2_cex_exec_price]; norm_num
    have h3 : quantize_down 6 (quantize_down 2 ((1002:ℚ)/100) /
        (get_execution_price (100099/10) 1 * (1 + 2/1000))) < 1/1000 := by
      rw [hgc, c2_cex_exec_price]
      have e2 : (1002/100 : ℚ) / ((100099/10) * (1 + 2/1000)) = 100/100099 := by
        norm_num
      rw [e2, quantize_down_eval (by norm_num)]
      norm_num
    exact plan_below_min h1 h2 h3

/-- C2 amended: when the engine's own lower-bound quantity
`floor_tick(cap / (price * (1 + feeRate)))` is at least `minQuantity` (rather
than merely some valid tick-multiple quantity existing), the result is not a
Skip for some sufficient fuel, the planned quantity is at least `minQuantity`,
and it is maximal: one more tick would push the conservative cost over the
quantized cap. -/
theorem c2_not_skip_and_maximal (asset symbol : String) (tick_size : ℕ)
    (min_quantity slippage_factor fee_rate ask gross_cap : ℚ)
    (h1 : 0 < quantize_down 2 gross_cap)
    (hp : 0 < get_execution_price ask slippage_factor)
    (hf : 0 ≤ fee_rate)
    (hmin : min_quantity ≤ quantize_down tick_size (quantize_down 2 gross_cap /
        (get_execution_price ask slippage_factor * (1 + fee_rate)))) :
    ∃ (fuel : ℕ) (q : ℚ),
      planned_amount (plan_order_to_cap fuel asset gross_cap symbol tick_size
        min_quantity slippage_factor fee_rate ask) = some q
      ∧ min_quantity ≤ q
      ∧ quantize_down 2 gross_cap <
          required_funds_conservative (get_execution_price ask slippage_factor)
            (q + quant_step tick_size) fee_rate := by
  set p := get_execution_price ask slippage_factor with hpdef
  set gc := quantize_down 2 gross_cap with hgcdef
  have hf1 : (0:ℚ) < 1 + fee_rate := by linarith
  have hd : 0 < p * (1 + fee_rate) := mul_pos hp hf1
  set q0 := quantize_down tick_size (gc / (p * (1 + fee_rate))) with hq0def
  have hratio : (0:ℚ) ≤ gc / (p * (1 + fee_rate)) := (div_pos h1 hd).le
  have hq0nn : 0 ≤ q0 := quantize_down_nonneg hratio
  have htick : quantize_down tick_size q0 = q0 :=
    quantize_down_eq_of_mult (quantize_down_is_mult tick_size _)
  obtain ⟨n, q', hbump⟩ := @bump_loop_total p fee_rate gc tick_size q0 hp hf hq0nn htick
  obtain ⟨ht', hq0le, hfit, hexit⟩ := bump_loop_spec htick hbump
  have hfit' : required_funds_conservative p q' fee_rate ≤ gc := by
    rcases hfit with rfl | hfit
    · exact required_le_cap hp hf1 (quantize_down_is_mult 2 _) hq0nn
        (quantize_down_le_self hratio)
    · exact hfit
  refine ⟨n, q', ?_, le_trans hmin hq0le, hexit⟩
  simp only [plan_order_to_cap]
  rw [if_neg (not_le.mpr h1), if_neg (not_le.mpr hd), if_neg (not_lt.mpr hmin),
    hbump, Option.map_some', finalize_fits hfit']
  rfl

/-- C2 amended witness: the reference BTC inputs satisfy the lower-bound
hypothesis, so the engine plans a maximal non-skip order. -/
theorem c2_not_skip_and_maximal_witness :
    ∃ (fuel : ℕ) (q : ℚ),
      planned_amount (plan_order_to_cap fuel "BTC" BTC_TARGET "btcgusd" 8 (1/100000)
        (999/1000) (2/1000) 5000000) = some q
      ∧ (1/100000 : ℚ) ≤ q
      ∧ quantize_down 2 BTC_TARGET <
          required_funds_conservative (get_execution_price 5000000 (999/1000))
            (q + quant_step 8) (2/1000) :=
  c2_not_skip_and_maximal "BTC" "btcgusd" 8 (1/100000) (999/1000) (2/1000) 5000000
    BTC_TARGET
    (by rw [gc_btc_eval]; norm_num)
    (by rw [exec_price_btcW]; norm_num)
    (by norm_num)
    (by rw [gc_btc_eval, exec_price_btcW, q0_btcW]; norm_num)

def rollback_clock : ℕ → ℤ := fun n => 1000 - n

def steady_clock : ℕ → ℤ := fun _ => 1000

/-- C3: every `get_nonce` call on one client instance increments the internal
counter by exactly 1 and returns the new value, so the nonce sequence is
strictly increasing with no repeats; the nonce of a private request does not
depend on the wall clock read after construction (only the timestamp header
does), so this holds across simulated clock rollback. -/
theorem c3_nonce_strictly_increasing (seed : ℤ) (clock clock2 : ℕ → ℤ) (m n : ℕ)
    (hmn : m < n) :
    nonce_at seed (n + 1) = nonce_at seed n + 1
    ∧ nonce_at seed m < nonce_at seed n
    ∧ (private_request_headers seed clock n).1 = (private_request_headers seed clock2 n).1 := by
  refine ⟨?_, ?_, rfl⟩
  · rw [nonce_at_eq, nonce_at_eq]; push_cast; ring
  · rw [nonce_at_eq, nonce_at_eq]
    have h : (m:ℤ) < n := by exact_mod_cast hmn
    linarith

/-- C3 witness: seed 7, a rolling-back clock versus a steady clock, calls 0
and 1. -/
theorem c3_nonce_witness :
    nonce_at 7 (1 + 1) = nonce_at 7 1 + 1
    ∧ nonce_at 7 0 < nonce_at 7 1
    ∧ (private_request_headers 7 rollback_clock 1).1
        = (private_request_headers 7 steady_clock 1).1 :=
  c3_nonce_strictly_increasing 7 rollback_clock steady_clock 0 1 (by norm_num)

lemma req_30_2 : required_funds_conservative 30 2 0 = 60 := by
  have hc : compute_cost_floor 30 2 = 60 := by
    rw [compute_cost_floor_def, quantize_down_eval (by norm_num)]
    norm_num
  have hf : compute_fee_ceil (60:ℚ) 0 = 0 := by
    rw [compute_fee_ceil_def, quantize_up_eval (by norm_num)]
    norm_num
  rw [required_eq, hc, hf]
  norm_num

lemma req_30_1 : required_funds_conservative 30 1 0 = 30 := by
  have hc : compute_cost_floor 30 1 = 30 := by
    rw [compute_cost_floor_def, quantize_down_eval (by norm_num)]
    norm_num
  have hf : compute_fee_ceil (30:ℚ) 0 = 0 := by
    rw [compute_fee_ceil_def, quantize_up_eval (by norm_num)]
    norm_num
  rw [required_eq, hc, hf]
  norm_num

/-- C4 counterexample: with cap 50, price 30, fee 0, post-loop quantity 2, the
conservative estimate 60 exceeds the cap, one tick down (quantity 1, at tick
size 0 with minQuantity 1) would fit at 30 ≤ 50 — yet the code does not step
down: it abandons the order with the defensive Skip. -/
theorem c4_counterexample :
    (50:ℚ) < required_funds_conservative 30 2 0
    ∧ required_funds_conservative 30 1 0 ≤ 50
    ∧ (1:ℚ) ≥ 1
    ∧ finalize_plan "BTC" "btcgusd" 50 30 0 2
        = PlanResult.skipped "BTC: cannot fit within cap under conservative hold" := by
  refine ⟨by rw [req_30_2]; norm_num, by rw [req_30_1]; norm_num, le_refl 1, ?_⟩
  exact finalize_skipped (by rw [req_30_2]; norm_num)

/-- C4 amended: after the bump loop, if the conservative estimate of the
current quantity exceeds the cap, the engine returns the defensive Skip
(reason "cannot fit within cap under conservative hold") — it never steps the
quantity down; otherwise it emits the plan with the quantity unchanged. -/
theorem c4_post_loop_no_step_down (asset symbol : String) (gc p fee q : ℚ) :
    (gc < required_funds_conservative p q fee →
      finalize_plan asset symbol gc p fee q
        = PlanResult.skipped (asset ++ ": cannot fit within cap under conservative hold"))
    ∧ (required_funds_conservative p q fee ≤ gc →
      planned_amount (some (finalize_plan asset symbol gc p fee q)) = some q) :=
  ⟨fun h => finalize_skipped h, fun h => by rw [finalize_fits h]; rfl⟩

/-- C4 amended witness: both branches at concrete inputs. -/
theorem c4_post_loop_no_step_down_witness :
    finalize_plan "BTC" "btcgusd" 50 30 0 2
      = PlanResult.skipped ("BTC" ++ ": cannot fit within cap under conservative hold")
    ∧ planned_amount (some (finalize_plan "BTC" "btcgusd" 50 30 0 1)) = some 1 :=
  ⟨(c4_post_loop_no_step_down "BTC" "btcgusd" 50 30 0 2).1 (by rw [req_30_2]; norm_num),
    (c4_post_loop_no_step_down "BTC" "btcgusd" 50 30 0 1).2 (by rw [req_30_1]; norm_num)⟩

/-- C5 counterexample: in the reference run the handler plans and places the
BTC order, yet sets the ETH cap to 28.90 even though the live exchange balance
a re-read would return (`envW.balances 1`, here 0 after the BTC hold) gives
`min(ETH_TARGET, live_remaining) = 0`.  The ETH cap is computed from the
conservative requirement, not from a re-read balance. -/
theorem c5_counterexample :
    ethCapOf (lambda_handler envW 2) = some (289/10)
    ∧ min ETH_TARGET (envW.balances 1) = 0
    ∧ ethCapOf (lambda_handler envW 2) ≠ some (min ETH_TARGET (envW.balances 1)) := by
  have h1 : ethCapOf (lambda_handler envW 2) = some (289/10) := by
    rw [handler_eval]; rfl
  have hb1 : envW.balances 1 = 0 := rfl
  have h2 : min ETH_TARGET (envW.balances 1) = 0 := by
    rw [hb1, ETH_TARGET_eq]
    exact min_eq_right (by norm_num)
  refine ⟨h1, h2, ?_⟩
  rw [h1, h2]
  intro hcontra
  have := Option.some.inj hcontra
  norm_num at this

/-- C5 amended: the handler processes the assets sequentially (BTC sized
first) but reads the exchange balance exactly once, before planning — the
entire run is unchanged if every balance read after index 0 is replaced — and
each subsequent asset's cap is `min(ETH_TARGET, MAX_BUY - btc_required)`
computed from BTC's conservative requirement, not from a re-read live
balance; both orders are placed only after both plans. -/
theorem c5_caps_from_conservative_hold (env : Env) (g : ℕ → ℚ) (fuel : ℕ)
    (cap br : ℚ) (hg : g 0 = env.balances 0) :
    lambda_handler { env with balances := g } fuel = lambda_handler env fuel
    ∧ (ethCapOf (lambda_handler env fuel) = some cap →
       btcRequiredOf (lambda_handler env fuel) = some br →
       cap = min ETH_TARGET (MAX_BUY - br)) := by
  constructor
  · have hassemble : assemble { env with balances := g } = assemble env := by
      funext x; cases x <;> rfl
    have hphase : phase1 ({ env with balances := g } : Env).feeBps
        (({ env with balances := g } : Env).balances 0)
        ({ env with balances := g } : Env).askBTC
        ({ env with balances := g } : Env).askETH fuel
        = phase1 env.feeBps (env.balances 0) env.askBTC env.askETH fuel := by
      show phase1 env.feeBps (g 0) env.askBTC env.askETH fuel = _
      rw [hg]
    unfold lambda_handler
    rw [hassemble, hphase]
  · intro hcap hbr
    unfold lambda_handler at hcap hbr
    rcases hp1 : phase1 env.feeBps (env.balances 0) env.askBTC env.askETH fuel with _ | out
    · rw [hp1] at hcap; simp [ethCapOf] at hcap
    · rw [hp1] at hcap hbr
      cases out with
      | insufficient g0 => simp [assemble, ethCapOf] at hcap
      | stop t2 => simp [assemble, ethCapOf] at hcap
      | go bps fr g0 bp ep ecap br2 er tot =>
        simp only [Option.map_some'] at hcap hbr
        have hcap2 : ecap = cap := by
          have := Option.some.inj hcap
          simpa [assemble, ethCapOf] using hcap
        have hbr2 : br2 = br := by
          simpa [assemble, btcRequiredOf] using hbr
        obtain ⟨hecap, hbrle, hbrm⟩ := phase1_go_inv hp1
        rw [← hcap2, ← hbr2, hecap]
        exact eth_cap_formula hbrm hbrle

/-- C5 amended witness: the reference run, with every later balance read
replaced by the same stream, and the concrete cap/hold pair 28.90 / 56.06. -/
theorem c5_caps_from_conservative_hold_witness :
    lambda_handler { envW with balances := envW.balances } 2 = lambda_handler envW 2
    ∧ (289/10 : ℚ) = min ETH_TARGET (MAX_BUY - 5606/100) :=
  ⟨(c5_caps_from_conservative_hold envW envW.balances 2 (289/10) (5606/100) rfl).1,
    (c5_caps_from_conservative_hold envW envW.balances 2 (289/10) (5606/100) rfl).2
      (by rw [handler_eval]; rfl) (by rw [handler_eval]; rfl)⟩

/-- C6: the budget split is exact in decimal arithmetic: MAX_BUY is 85.00, the
66% BTC target rounded half-up at the cent is 56.10, the ETH target is the
remainder 28.90, and the two targets sum exactly to 85.00. -/
theorem c6_budget_split_exact :
    MAX_BUY = 85 ∧ BTC_TARGET = 561/10 ∧ ETH_TARGET = MAX_BUY - BTC_TARGET
    ∧ ETH_TARGET = 289/10 ∧ BTC_TARGET + ETH_TARGET = MAX_BUY := by
  refine ⟨MAX_BUY_eq, BTC_TARGET_eq, ?_, ETH_TARGET_eq, ?_⟩
  · rw [ETH_TARGET_eq, MAX_BUY_eq, BTC_TARGET_eq]; norm_num
  · rw [ETH_TARGET_eq, MAX_BUY_eq, BTC_TARGET_eq]; norm_num

/-- C7: when the lower-bound quantity `floor_tick(cap / (price * (1+fee)))` is
below `min_quantity`, `plan_order_to_cap` returns a Skip whose reason states
the quantity is below the minimum, and `place_planned_order` passes the skip
through without placing any order. -/
theorem c7_below_min_skip (fuel : ℕ) (asset symbol : String) (gross_cap : ℚ)
    (tick_size : ℕ) (min_quantity slippage_factor fee_rate ask : ℚ)
    (outcome : Except String String)
    (h1 : 0 < quantize_down 2 gross_cap)
    (h2 : 0 < get_execution_price ask slippage_factor * (1 + fee_rate))
    (h3 : quantize_down tick_size (quantize_down 2 gross_cap /
        (get_execution_price ask slippage_factor * (1 + fee_rate))) < min_quantity) :
    plan_order_to_cap fuel asset gross_cap symbol tick_size min_quantity
        slippage_factor fee_rate ask
      = some (PlanResult.skipped (asset ++ ": below min quantity"))
    ∧ place_planned_order (PlanResult.skipped (asset ++ ": below min quantity")) outcome
      = PlaceResult.skipped (asset ++ ": below min quantity") :=
  ⟨plan_below_min h1 h2 h3, rfl⟩

/-- C7 witness: cap 0.50, minQuantity 0.001, price 50000 (slippage 1, fee
0.002, tick 6) yields the below-minimum Skip and no order placement. -/
theorem c7_below_min_skip_witness :
    plan_order_to_cap 0 "ETH" (1/2) "ethgusd" 6 (1/1000) 1 (2/1000) 50000
      = some (PlanResult.skipped ("ETH" ++ ": below min quantity"))
    ∧ place_planned_order (PlanResult.skipped ("ETH" ++ ": below min quantity"))
        (Except.ok "")
      = PlaceResult.skipped ("ETH" ++ ": below min quantity") := by
  have hgc : quantize_down 2 ((1:ℚ)/2) = 1/2 := quantize_down_eq_of_mult ⟨50, by norm_num⟩
  have hex : get_execution_price 50000 1 = 50000 := by
    unfold get_execution_price
    rw [quantize_down_eval (by norm_num)]
    norm_num
  refine c7_below_min_skip 0 "ETH" "ethgusd" (1/2) 6 (1/1000) 1 (2/1000) 50000
    (Except.ok "") ?_ ?_ ?_
  · rw [hgc]; norm_num
  · rw [hex]; norm_num
  · rw [hgc, hex]
    have e2 : (1/2 : ℚ) / (50000 * (1 + 2/1000)) = 1/100200 := by norm_num
    rw [e2, quantize_down_eval (by norm_num)]
    norm_num

/-- C8: a failed `place_order` for BTC does not abort the ETH leg or the run:
with the BTC placement turned into an exception, the invocation still returns
the 200 structured body, the ETH outcome is unchanged, and
`place_planned_order` converts the exception into an error result instead of
raising. -/
theorem c8_failures_isolated (env : Env) (fuel : ℕ) (e : String) (pl : OrderPlan)
    (msg : String) (h : is_success (lambda_handler env fuel) = true) :
    is_success (lambda_handler { env with placeBTC := Except.error e } fuel) = true
    ∧ ethResultOf (lambda_handler { env with placeBTC := Except.error e } fuel)
        = ethResultOf (lambda_handler env fuel)
    ∧ place_planned_order (PlanResult.planned pl) (Except.error msg)
        = PlaceResult.errored msg pl := by
  have heq : lambda_handler { env with placeBTC := Except.error e } fuel
      = (phase1 env.feeBps (env.balances 0) env.askBTC env.askETH fuel).map
          (assemble { env with placeBTC := Except.error e }) := rfl
  have heq2 : lambda_handler env fuel
      = (phase1 env.feeBps (env.balances 0) env.askBTC env.askETH fuel).map
          (assemble env) := rfl
  rw [heq2] at h
  rcases hp1 : phase1 env.feeBps (env.balances 0) env.askBTC env.askETH fuel with _ | out
  · rw [hp1] at h; simp [is_success] at h
  · rw [hp1] at h
    rw [heq, heq2, hp1]
    cases out with
    | insufficient g0 => simp [assemble, is_success] at h
    | stop t2 => simp [assemble, is_success] at h
    | go bps fr g0 bp ep ecap br er tot => exact ⟨rfl, rfl, rfl⟩

/-- C8 witness: the reference run with the BTC placement failing with "boom". -/
theorem c8_failures_isolated_witness :
    is_success (lambda_handler { envW with placeBTC := Except.error "boom" } 2) = true
    ∧ ethResultOf (lambda_handler { envW with placeBTC := Except.error "boom" } 2)
        = ethResultOf (lambda_handler envW 2)
    ∧ place_planned_order (PlanResult.planned btcPlanW) (Except.error "boom")
        = PlaceResult.errored "boom" btcPlanW :=
  c8_failures_isolated envW 2 "boom" btcPlanW "boom" (by rw [handler_eval]; rfl)

/-- C9: in every run of the handler the sum of the BTC and ETH conservative
holds is at most MAX_BUY — the ETH cap is bounded by the remaining budget and
each plan's hold is bounded by its cap — so the "Internal safety stop" branch
(statusCode 500) is unreachable. -/
theorem c9_safety_stop_unreachable (env : Env) (fuel : ℕ) (tot : ℚ) :
    lambda_handler env fuel ≠ some (LambdaResponse.safetyStop tot) := by
  intro h
  unfold lambda_handler at h
  rcases hp1 : phase1 env.feeBps (env.balances 0) env.askBTC env.askETH fuel with _ | out
  · rw [hp1] at h; simp at h
  · rw [hp1] at h
    simp only [Option.map_some'] at h
    have hout := Option.some.inj h
    cases out with
    | insufficient g0 => simp [assemble] at hout
    | go bps fr g0 bp ep ecap br er tot2 => simp [assemble] at hout
    | stop t2 =>
      have ht : t2 = tot := by simpa [assemble] using hout
      subst ht
      exact phase1_not_stop hp1

/-- C9 witness: the reference run never returns the safety stop. -/
theorem c9_safety_stop_unreachable_witness :
    lambda_handler envW 2 ≠ some (LambdaResponse.safetyStop 0) :=
  c9_safety_stop_unreachable envW 2 0

/-- C10: for a positive execution price and non-negative fee rate, the
one-tick bump loop terminates from any tick-quantized non-negative start: the
conservative requirement of the candidates grows without bound, so some
finite fuel makes the loop break on its own. -/
theorem c10_bump_loop_terminates (execution_price fee_rate gross_cap : ℚ)
    (tick_size : ℕ) (q : ℚ) (hp : 0 < execution_price) (hf : 0 ≤ fee_rate)
    (hq : 0 ≤ q) (htick : quantize_down tick_size q = q) :
    ∃ (n : ℕ) (q2 : ℚ),
      bump_loop execution_price fee_rate gross_cap tick_size n q = some q2 :=
  bump_loop_total hp hf hq htick

/-- C10 witness: price 1, fee 0, cap 1, tick 0, start 0. -/
theorem c10_bump_loop_terminates_witness :
    ∃ (n : ℕ) (q2 : ℚ), bump_loop 1 0 1 0 n 0 = some q2 :=
  c10_bump_loop_terminates 1 0 1 0 0 (by norm_num) (le_refl 0) (le_refl 0)
    (by rw [quantize_down_eval (le_refl 0)]; norm_num)
